import Mathlib

/-!
Shallow embedding of the io_uring user-space library (`src/io_uring.rs`)
and proofs of the specification's claims about it.

Machine integers (`u32`) are modelled as `Nat` with explicit reduction
modulo `2^32`; fallible paths carry explicit outcome flags; the pointer
writes into the three kernel-shared mapped regions are modelled as a
resource-event trace (for setup/teardown) and as updates to total
functions indexed by cell offset (for the SQ ring array and SQE pool).
-/

namespace Iouring

/-! ## u32 modular arithmetic (Rust wrapping semantics) -/

def U32 : Nat := 4294967296

/-- Wrapping `u32` addition. -/
def u32add (a b : Nat) : Nat := (a + b) % U32

/-- Wrapping `u32` subtraction. -/
def u32sub (a b : Nat) : Nat := (a + U32 - b % U32) % U32

/-! ## Opcodes and flag bits (io_uring ABI constants from the source) -/

def IORING_OP_NOP : Nat := 0
def IORING_OP_READV : Nat := 1
def IORING_OP_WRITEV : Nat := 2
def IORING_OP_FSYNC : Nat := 3

/-- `EnterFlags::GETEVENTS = 1 << 0`. -/
def ENTER_GETEVENTS : Nat := 1
/-- `EnterFlags::SQ_WAKEUP = 1 << 1`. -/
def ENTER_SQ_WAKEUP : Nat := 2

/-! ## SQE records and the entry preparers (`impl SQEntry`) -/

/-- The 64-byte `io_uring_sqe` record.  The two argument unions are each
modelled by the single member the preparers write (`rw_flags`, `__pad2`). -/
structure io_uring_sqe where
  opcode : Nat
  flags : Nat
  ioprio : Nat
  fd : Int
  off : Nat
  addr : Nat
  len : Nat
  args : Nat
  user_data : Nat
  idx : Nat
deriving DecidableEq

/-- `SQEntry::prep_rw`: overwrite the whole SQE, setting `opcode`, `fd`,
`off`, `addr`, `len` and zeroing everything else. -/
def prep_rw (op : Nat) (fd : Int) (addr : Nat) (len : Nat) (off : Nat) : io_uring_sqe :=
  { opcode := op, flags := 0, ioprio := 0, fd := fd, off := off,
    addr := addr, args := 0, user_data := 0, len := len, idx := 0 }

/-- `SQEntry::prep_readv` (source line 354): `prep_rw(IORING_OP_READV, ...)`. -/
def prep_readv (fd : Int) (iovecs : Nat) (nr_vecs : Nat) (off : Nat) : io_uring_sqe :=
  prep_rw IORING_OP_READV fd iovecs nr_vecs off

/-- `SQEntry::prep_writev` (source line 359): the source body passes
`IORING_OP_READV` to `prep_rw`, exactly as written at line 361. -/
def prep_writev (fd : Int) (iovecs : Nat) (nr_vecs : Nat) (off : Nat) : io_uring_sqe :=
  prep_rw IORING_OP_READV fd iovecs nr_vecs off

/-- `SQEntry::set_data`: store the caller's `user_data` token. -/
def set_data (sqe : io_uring_sqe) (data : Nat) : io_uring_sqe :=
  { sqe with user_data := data }

/-! ## SQ state (`struct SQ`)

The kernel-shared cells (`*khead`, `*ktail`, `*kring_mask`,
`*kring_entries`, `*kflags`, `*kdropped`), the ring `array` and the SQE
pool are modelled by value; `array` and `sqes` as total functions from
cell index. -/

structure SQ where
  khead : Nat
  ktail : Nat
  kring_mask : Nat
  kring_entries : Nat
  kflags : Nat
  kdropped : Nat
  array : Nat → Nat
  sqes : Nat → io_uring_sqe
  sqe_head : Nat
  sqe_tail : Nat

/-- `IoUring::get_sqe`: hand out the slot at `sqe_tail & mask` (as an index
into the SQE pool) and advance the private tail, or return `none` when the
queue is full.  No SQE field is written. -/
def get_sqe (s : SQ) : Option Nat × SQ :=
  let next := u32add s.sqe_tail 1
  let nentries := s.kring_entries
  if u32sub next s.sqe_head > nentries then
    (none, s)
  else
    let mask := s.kring_mask
    let idx := s.sqe_tail &&& mask
    (some idx, { s with sqe_tail := next })

/-- One iteration of the `flush_sq` loop body: write
`array[ktail & mask] = sqe_head & mask`, then bump `sqe_head` and the
local `ktail` (both wrapping).  State is `(array, sqe_head, ktail)`. -/
def flushStep (mask : Nat) (st : (Nat → Nat) × Nat × Nat) : (Nat → Nat) × Nat × Nat :=
  (Function.update st.1 (st.2.2 &&& mask) (st.2.1 &&& mask),
   u32add st.2.1 1, u32add st.2.2 1)

/-- `IoUring::flush_sq`: publish `to_submit = sqe_tail - sqe_head` entries
into the kernel-visible ring array, then store the bumped tail into the
kernel-visible `*ktail` cell (the release store).  When `to_submit = 0`
return `0` with the state untouched. -/
def flush_sq (s : SQ) : Nat × SQ :=
  let to_submit := u32sub s.sqe_tail s.sqe_head
  if to_submit = 0 then
    (0, s)
  else
    let mask := s.kring_mask
    let st := (flushStep mask)^[to_submit] (s.array, s.sqe_head, s.ktail)
    (to_submit, { s with array := st.1, sqe_head := st.2.1, ktail := st.2.2 })

/-! ## Enter policy (`sq_ring_needs_enter`, `do_submit`) -/

/-- `IoUring::sq_ring_needs_enter`: `some flags` means io_uring_enter is
needed with those flags, `none` means the SQ needs no enter (SQPOLL thread
is awake).  `sqpoll` is `SetupFlags::SQPOLL` of the ring; `need_wakeup`
is `NEED_WAKEUP` of the volatile `*kflags` read. -/
def sq_ring_needs_enter (sqpoll : Bool) (need_wakeup : Bool) : Option Nat :=
  if !sqpoll then
    some 0
  else if need_wakeup then
    some ENTER_SQ_WAKEUP
  else
    none

/-- Outcome of `do_submit`: either no syscall is issued and `Ok ret` is
returned directly, or `io_uring_enter(fd, to_submit, min_complete, flags)`
is invoked. -/
inductive SubmitAction where
  | noSyscall (ret : Nat)
  | enter (to_submit : Nat) (min_complete : Nat) (flags : Nat)
deriving DecidableEq

/-- `IoUring::do_submit`: match on `(wait_nr, sq_ring_needs_enter())`,
skip the syscall only in the `(0, None)` arm, set `GETEVENTS` when
`wait_nr > 0`, and clamp `wait_nr` to `submitted`. -/
def do_submit (sqpoll need_wakeup : Bool) (submitted wait_nr : Nat) : SubmitAction :=
  match wait_nr, sq_ring_needs_enter sqpoll need_wakeup with
  | 0, none => SubmitAction.noSyscall submitted
  | 0, some x =>
      SubmitAction.enter submitted (if 0 > submitted then submitted else 0) x
  | n+1, none =>
      SubmitAction.enter submitted (if n+1 > submitted then submitted else n+1)
        ENTER_GETEVENTS
  | n+1, some x =>
      SubmitAction.enter submitted (if n+1 > submitted then submitted else n+1)
        (x ||| ENTER_GETEVENTS)

/-- `IoUring::do_submit_and_wait`: flush the SQ; call `do_submit` only
when something was flushed, otherwise return `Ok(0)` with no syscall. -/
def do_submit_and_wait (s : SQ) (sqpoll need_wakeup : Bool) (wait_nr : Nat) :
    SubmitAction × SQ :=
  let fl := flush_sq s
  if fl.1 > 0 then
    (do_submit sqpoll need_wakeup fl.1 wait_nr, fl.2)
  else
    (SubmitAction.noSyscall 0, fl.2)

/-- `IoUring::submit`: `do_submit_and_wait(0)`. -/
def submit (s : SQ) (sqpoll need_wakeup : Bool) : SubmitAction × SQ :=
  do_submit_and_wait s sqpoll need_wakeup 0

/-! ## Setup / teardown resource traces (`init`, `queue_mmap`,
`queue_unmap`, `Drop`) -/

/-- The three kernel-shared mapped regions. -/
inductive Region where
  | sqRing
  | sqesArr
  | cqRing
deriving DecidableEq

/-- Resource events performed by setup and teardown, in program order. -/
inductive Ev where
  | mapped (r : Region) (len : Nat)
  | unmapped (r : Region) (len : Nat)
  | closedFd
deriving DecidableEq

/-- The fields of `io_uring_params` that the mapping code reads after a
successful `io_uring_setup`. -/
structure MmapParams where
  sq_off_array : Nat
  sq_entries : Nat
  cq_off_cqes : Nat
  cq_entries : Nat
deriving DecidableEq

/-- `sq_ring_sz = sq_off.array + sq_entries * size_of::<u32>()`. -/
def sqRingSize (p : MmapParams) : Nat := p.sq_off_array + p.sq_entries * 4

/-- `sqes_size = sq_entries * size_of::<io_uring_sqe>()`. -/
def sqesSize (p : MmapParams) : Nat := p.sq_entries * 64

/-- `cq_ring_sz = cq_off.cqes + cq_entries * size_of::<io_uring_cqe>()`. -/
def cqRingSize (p : MmapParams) : Nat := p.cq_off_cqes + p.cq_entries * 16

/-- `IoUring::queue_mmap`, as its resource trace.  The booleans say
whether each of the three `mmap` calls succeeds.  Result: `true` for
`Ok(())`, `false` for `Err(..)`; paired with the events in program order
(the source's unwind order on CQ-ring failure is SQ ring first, then the
SQE array, lines 506-507). -/
def queue_mmap (p : MmapParams) (sqOk sqesOk cqOk : Bool) : Bool × List Ev :=
  if !sqOk then
    (false, [])
  else if !sqesOk then
    (false, [Ev.mapped Region.sqRing (sqRingSize p),
             Ev.unmapped Region.sqRing (sqRingSize p)])
  else if !cqOk then
    (false, [Ev.mapped Region.sqRing (sqRingSize p),
             Ev.mapped Region.sqesArr (sqesSize p),
             Ev.unmapped Region.sqRing (sqRingSize p),
             Ev.unmapped Region.sqesArr (sqesSize p)])
  else
    (true, [Ev.mapped Region.sqRing (sqRingSize p),
            Ev.mapped Region.sqesArr (sqesSize p),
            Ev.mapped Region.cqRing (cqRingSize p)])

/-- `IoUring::init`: run setup, then `queue_mmap`; when the mapping step
fails, close the fd — and then return `Ok(ret)` unconditionally, exactly
as the source does at lines 412-416.  Result boolean: `true` when init
returns `Ok(IoUring)`, `false` when it returns `Err(..)`. -/
def init (p : MmapParams) (setupOk sqOk sqesOk cqOk : Bool) : Bool × List Ev :=
  if !setupOk then
    (false, [])
  else
    let qm := queue_mmap p sqOk sqesOk cqOk
    if !qm.1 then
      (true, qm.2 ++ [Ev.closedFd])
    else
      (true, qm.2)

/-- `IoUring::queue_unmap`: unmap the SQ ring, then the SQE array — whose
length is recomputed as `(*kring_entries) * size_of::<io_uring_sqe>()`
from the cell inside the mapped SQ ring — then the CQ ring. -/
def queue_unmap (kring_entries sq_ring_sz cq_ring_sz : Nat) : List Ev :=
  [Ev.unmapped Region.sqRing sq_ring_sz,
   Ev.unmapped Region.sqesArr (kring_entries * 64),
   Ev.unmapped Region.cqRing cq_ring_sz]

/-- `Drop for IoUring`: `queue_unmap` then `close(fd)`. -/
def drop_ring (kring_entries sq_ring_sz cq_ring_sz : Nat) : List Ev :=
  queue_unmap kring_entries sq_ring_sz cq_ring_sz ++ [Ev.closedFd]

/-- The unmap event corresponding to a given map event. -/
def toUnmap : Ev → Ev
  | Ev.mapped r l => Ev.unmapped r l
  | e => e

/-! ## io_uring_enter syscall wrapper (sigset size) -/

/-- `NSIG_` constant of the `io_uring_enter` wrapper (source line 267). -/
def NSIG_ : Nat := 65

/-- The `sigset_size` argument computed in the wrapper: `NSIG_ / 8`
(integer division). -/
def enter_sigset_size : Nat := NSIG_ / 8

/-- The full argument list the wrapper passes to
`syscall(SYS_io_uring_enter, ...)`: fd, to_submit, min_complete, flags,
sigset pointer, and the fixed sigset size. -/
def io_uring_enter_args (fd to_submit min_complete flags sigset : Nat) : List Nat :=
  [fd, to_submit, min_complete, flags, sigset, enter_sigset_size]

/-! ## Concrete states used by witnesses -/

/-- A small concrete SQ state: 4 entries, mask 3, empty ring. -/
def sq0 : SQ :=
  { khead := 0, ktail := 0, kring_mask := 3, kring_entries := 4, kflags := 0,
    kdropped := 0, array := fun _ => 0, sqes := fun _ => prep_rw 0 0 0 0 0,
    sqe_head := 0, sqe_tail := 0 }

/-- A concrete SQ state on which `get_sqe` reports queue-full. -/
def sqSaturated : SQ :=
  { khead := 0, ktail := 0, kring_mask := 1, kring_entries := 2, kflags := 0,
    kdropped := 0, array := fun _ => 0, sqes := fun _ => prep_rw 0 0 0 0 0,
    sqe_head := 0, sqe_tail := 2 }

/-- A concrete SQ state with two allocated-but-unflushed entries. -/
def sqPending : SQ :=
  { khead := 0, ktail := 0, kring_mask := 3, kring_entries := 4, kflags := 0,
    kdropped := 0, array := fun _ => 0, sqes := fun _ => prep_rw 0 0 0 0 0,
    sqe_head := 0, sqe_tail := 2 }

/-! ## Interleavings of the SQ-view operations -/

/-- The two SQ-view operations a producer may interleave. -/
inductive SQOp where
  | alloc
  | flush
deriving DecidableEq

/-- Apply one operation's state effect. -/
def sqStep : SQOp → SQ → SQ
  | SQOp.alloc, s => (get_sqe s).2
  | SQOp.flush, s => (flush_sq s).2

/-- Run a sequence of SQ operations from a state. -/
def runOps (ops : List SQOp) (s : SQ) : SQ :=
  ops.foldl (fun s op => sqStep op s) s

/-- The SQ counter invariant of the spec:
`0 ≤ sqe_tail - sqe_head ≤ ring_entries` in wrapping `u32` arithmetic
(the lower bound is automatic since the wrapped difference is a `Nat`). -/
def sqInv (s : SQ) : Prop :=
  u32sub s.sqe_tail s.sqe_head ≤ s.kring_entries

/-! ## Claims -/

/-- C1: when `io_uring_setup` succeeds but a mapping fails (here the
SQE-array mmap), `init` unmaps the region already mapped and closes the
ring fd — but it then returns `Ok` (result boolean `true`), not the
mapping error: the `Err` of `queue_mmap` is dropped at source lines
412-416. -/
theorem init_returns_ok_on_mmap_failure :
    init ⟨64, 4, 32, 8⟩ true true false true =
      (true, [Ev.mapped Region.sqRing 80, Ev.unmapped Region.sqRing 80,
              Ev.closedFd]) := by
  decide

/-- C2: `prep_writev` fills the SQE with opcode `IORING_OP_READV`
(value 1), not `IORING_OP_WRITEV` (value 2), because the source body of
`prep_writev` passes `IORING_OP_READV` to `prep_rw`; `prep_readv` also
yields opcode 1.  Evaluated at fd 3, iovec pointer 4096, 2 vectors,
offset 0. -/
theorem prep_writev_sets_readv_opcode :
    (prep_writev 3 4096 2 0).opcode = IORING_OP_READV ∧
    (prep_writev 3 4096 2 0).opcode ≠ IORING_OP_WRITEV ∧
    IORING_OP_WRITEV = 2 ∧
    (prep_readv 3 4096 2 0).opcode = IORING_OP_READV ∧
    IORING_OP_READV = 1 := by
  refine ⟨rfl, ?_, rfl, rfl, rfl⟩
  decide

/-- C3 counterexample: with SQPOLL not configured (so no wake-up is
needed) and `wait_nr = 0`, `do_submit` does NOT skip the syscall: it
invokes `io_uring_enter` with empty flags, because
`sq_ring_needs_enter` returns `Some(empty)` whenever SQPOLL is off. -/
theorem do_submit_enters_without_sqpoll :
    do_submit false false 5 0 = SubmitAction.enter 5 0 0 ∧
    do_submit false false 5 0 ≠ SubmitAction.noSyscall 5 := by
  decide

/-- C3 (amended): the zero-syscall fast path applies exactly when
`wait_nr = 0`, SQPOLL is configured and `NEED_WAKEUP` is clear; in every
other case `io_uring_enter` is invoked with `wait_nr` clamped to
`submitted` and flags `SQ_WAKEUP` when SQPOLL needs waking, together
with `GETEVENTS` when `wait_nr > 0`. -/
theorem do_submit_enter_matrix (sqpoll need_wakeup : Bool) (submitted wait_nr : Nat) :
    do_submit sqpoll need_wakeup submitted wait_nr =
      if wait_nr = 0 ∧ sqpoll = true ∧ need_wakeup = false then
        SubmitAction.noSyscall submitted
      else
        SubmitAction.enter submitted
          (if wait_nr > submitted then submitted else wait_nr)
          ((if sqpoll = true ∧ need_wakeup = true then ENTER_SQ_WAKEUP else 0) |||
           (if 0 < wait_nr then ENTER_GETEVENTS else 0)) := by
  cases sqpoll <;> cases need_wakeup <;> cases wait_nr <;>
    simp [do_submit, sq_ring_needs_enter, ENTER_SQ_WAKEUP, ENTER_GETEVENTS,
      Nat.zero_or, Nat.or_zero, Nat.not_lt_zero]

/-- C4: `get_sqe` computes `next = sqe_tail + 1` (wrapping) and returns
`none` exactly when `next - sqe_head > ring_entries` (wrapping); in the
success case it returns the handle index `sqe_tail &&& ring_mask` and the
state with only `sqe_tail` advanced to `next` — in particular no SQE
field is written. -/
theorem get_sqe_protocol (s : SQ) :
    ((get_sqe s).1 = none ↔
       u32sub (u32add s.sqe_tail 1) s.sqe_head > s.kring_entries) ∧
    (u32sub (u32add s.sqe_tail 1) s.sqe_head ≤ s.kring_entries →
      (get_sqe s).1 = some (s.sqe_tail &&& s.kring_mask) ∧
      (get_sqe s).2 = { s with sqe_tail := u32add s.sqe_tail 1 }) := by
  by_cases h : u32sub (u32add s.sqe_tail 1) s.sqe_head > s.kring_entries
  · refine ⟨by simp [get_sqe, h], fun hle => absurd h (by omega)⟩
  · exact ⟨by simp [get_sqe, h], fun _ => ⟨by simp [get_sqe, h], by simp [get_sqe, h]⟩⟩

/-- C4 witness: on the concrete empty 4-entry state the allocation-side
hypothesis holds and `get_sqe` hands out slot 0 advancing the tail. -/
theorem get_sqe_protocol_witness :
    u32sub (u32add sq0.sqe_tail 1) sq0.sqe_head ≤ sq0.kring_entries ∧
    ((get_sqe sq0).1 = some (sq0.sqe_tail &&& sq0.kring_mask) ∧
     (get_sqe sq0).2 = { sq0 with sqe_tail := u32add sq0.sqe_tail 1 }) :=
  ⟨by decide, (get_sqe_protocol sq0).2 (by decide)⟩

/-- C8 counterexample: `Drop` does NOT unmap in reverse order of mapping —
on a concrete ring (sq_off.array 64, 4 SQ entries, cq_off.cqes 32, 8 CQ
entries) the teardown trace differs from the reversed mapping trace
followed by the fd close. -/
theorem drop_unmap_not_reverse_order :
    drop_ring 4 (sqRingSize ⟨64, 4, 32, 8⟩) (cqRingSize ⟨64, 4, 32, 8⟩) ≠
      ((queue_mmap ⟨64, 4, 32, 8⟩ true true true).2.reverse.map toUnmap ++
        [Ev.closedFd]) := by
  decide

/-- C8 (amended): on drop of the ring handle the three regions are
unmapped in the SAME order they were mapped (SQ ring, SQE array, CQ
ring), the fd is closed afterwards, and the SQE-array unmap length is
recomputed from the `ring_entries` cell of the mapped SQ ring (which the
asserted invariant ties to `sq_entries`). -/
theorem drop_unmap_order (p : MmapParams) (ke srs crs : Nat)
    (hke : ke = p.sq_entries) (hs : srs = sqRingSize p) (hc : crs = cqRingSize p) :
    drop_ring ke srs crs =
      (queue_mmap p true true true).2.map toUnmap ++ [Ev.closedFd] := by
  subst hke hs hc
  simp [drop_ring, queue_unmap, queue_mmap, toUnmap, sqesSize]

/-- C8 witness: the amended teardown-order theorem at the concrete ring
parameters used in the counterexample. -/
theorem drop_unmap_order_witness :
    drop_ring 4 (sqRingSize ⟨64, 4, 32, 8⟩) (cqRingSize ⟨64, 4, 32, 8⟩) =
      (queue_mmap ⟨64, 4, 32, 8⟩ true true true).2.map toUnmap ++ [Ev.closedFd] :=
  drop_unmap_order ⟨64, 4, 32, 8⟩ 4 (sqRingSize ⟨64, 4, 32, 8⟩)
    (cqRingSize ⟨64, 4, 32, 8⟩) rfl rfl rfl

/-- C9: every invocation of the `io_uring_enter` wrapper passes the fixed
sigset-size argument `NSIG_ / 8 = 65 / 8 = 8` (integer division),
independent of any userspace `sizeof(sigset_t)`. -/
theorem enter_passes_sigset_size_8 (fd to_submit min_complete flags sigset : Nat) :
    io_uring_enter_args fd to_submit min_complete flags sigset =
      [fd, to_submit, min_complete, flags, sigset, 8] ∧
    enter_sigset_size = 8 :=
  ⟨rfl, rfl⟩

/-! ### Helper lemmas on the flush loop and the counters -/

/-- After `n` iterations of the flush loop body, the private head and the
local kernel tail have advanced by `n` (wrapping); the bound hypothesis
is only needed to normalise the `n = 0` case. -/
theorem flushIter_counters (mask : Nat) :
    ∀ (n : Nat) (arr : Nat → Nat) (h t : Nat),
      (h < U32 ∧ t < U32) ∨ 1 ≤ n →
      ((flushStep mask)^[n] (arr, h, t)).2.1 = (h + n) % U32 ∧
      ((flushStep mask)^[n] (arr, h, t)).2.2 = (t + n) % U32 := by
  intro n
  induction n with
  | zero =>
      intro arr h t hb
      rcases hb with ⟨hh, ht⟩ | h1
      · constructor <;> simp [Nat.mod_eq_of_lt hh, Nat.mod_eq_of_lt ht]
      · omega
  | succ n ih =>
      intro arr h t _
      rw [Function.iterate_succ_apply]
      have hstep : flushStep mask (arr, h, t) =
          (Function.update arr (t &&& mask) (h &&& mask), u32add h 1, u32add t 1) := rfl
      rw [hstep]
      have hb : u32add h 1 < U32 ∧ u32add t 1 < U32 :=
        ⟨Nat.mod_lt _ (by decide), Nat.mod_lt _ (by decide)⟩
      obtain ⟨ih1, ih2⟩ := ih (Function.update arr (t &&& mask) (h &&& mask))
        (u32add h 1) (u32add t 1) (Or.inl hb)
      refine ⟨?_, ?_⟩
      · rw [ih1]; unfold u32add U32; omega
      · rw [ih2]; unfold u32add U32; omega

/-- `2^k` divides `2^32` for `k ≤ 32`. -/
theorem pow_dvd_U32 {k : Nat} (hk : k ≤ 32) : 2^k ∣ U32 := by
  have h : U32 = 2^32 := by norm_num [U32]
  rw [h]
  exact pow_dvd_pow 2 hk

/-- After `n ≤ 2^k` iterations of the flush loop with the power-of-two
mask `2^k - 1`, the cell written at step `i` still holds its value: no
later iteration hits the same `&&& mask` slot. -/
theorem flushIter_array (k : Nat) (hk : k ≤ 32) :
    ∀ (n : Nat) (arr : Nat → Nat) (h t : Nat), h < U32 → t < U32 → n ≤ 2^k →
      ∀ i, i < n →
        ((flushStep (2^k - 1))^[n] (arr, h, t)).1 ((t + i) % U32 &&& (2^k - 1)) =
          (h + i) % U32 &&& (2^k - 1) := by
  intro n
  induction n with
  | zero => intro arr h t _ _ _ i hi; omega
  | succ n ih =>
      intro arr h t hh ht hn i hi
      rw [Function.iterate_succ_apply']
      obtain ⟨c1, c2⟩ := flushIter_counters (2^k - 1) n arr h t (Or.inl ⟨hh, ht⟩)
      have hproj : (flushStep (2^k - 1) ((flushStep (2^k - 1))^[n] (arr, h, t))).1 =
          Function.update ((flushStep (2^k - 1))^[n] (arr, h, t)).1
            ((t + n) % U32 &&& (2^k - 1)) ((h + n) % U32 &&& (2^k - 1)) := by
        rw [show (flushStep (2^k - 1) ((flushStep (2^k - 1))^[n] (arr, h, t))).1 =
          Function.update ((flushStep (2^k - 1))^[n] (arr, h, t)).1
            (((flushStep (2^k - 1))^[n] (arr, h, t)).2.2 &&& (2^k - 1))
            (((flushStep (2^k - 1))^[n] (arr, h, t)).2.1 &&& (2^k - 1)) from rfl]
        rw [c1, c2]
      rw [hproj]
      rcases Nat.lt_succ_iff_lt_or_eq.mp hi with hlt | heq
      · have hne : (t + i) % U32 &&& (2^k - 1) ≠ (t + n) % U32 &&& (2^k - 1) := by
          rw [Nat.and_pow_two_sub_one_eq_mod, Nat.and_pow_two_sub_one_eq_mod]
          rw [Nat.mod_mod_of_dvd _ (pow_dvd_U32 hk), Nat.mod_mod_of_dvd _ (pow_dvd_U32 hk)]
          intro heq
          have h2 : 2^k ∣ (t + n) - (t + i) := (Nat.modEq_iff_dvd' (by omega)).mp heq
          have h3 := Nat.le_of_dvd (by omega) h2
          have hd : (t + n) - (t + i) = n - i := by omega
          rw [hd] at h3
          omega
        rw [Function.update_noteq hne]
        exact ih arr h t hh ht (by omega) i hlt
      · subst heq
        exact Function.update_same _ _ _

/-- Flushing leaves no pending entries: the wrapped difference of the
private counters is zero after `flush_sq`. -/
theorem flush_sq_result_flushed (s : SQ) :
    u32sub (flush_sq s).2.sqe_tail (flush_sq s).2.sqe_head = 0 := by
  by_cases hz : u32sub s.sqe_tail s.sqe_head = 0
  · simp [flush_sq, hz]
  · have hc := flushIter_counters s.kring_mask (u32sub s.sqe_tail s.sqe_head)
      s.array s.sqe_head s.ktail (Or.inr (by omega))
    simp only [flush_sq, if_neg hz]
    rw [hc.1]
    unfold u32sub U32
    omega

/-- `flush_sq` on a state with no pending entries returns `0` and leaves
the state untouched. -/
theorem flush_sq_of_flushed (s : SQ) (h : u32sub s.sqe_tail s.sqe_head = 0) :
    flush_sq s = (0, s) := by
  simp [flush_sq, h]

/-- `get_sqe` preserves the counter invariant. -/
theorem get_sqe_preserves_inv (s : SQ) (hinv : sqInv s) : sqInv (get_sqe s).2 := by
  by_cases hc : u32sub (u32add s.sqe_tail 1) s.sqe_head > s.kring_entries
  · simpa [get_sqe, hc] using hinv
  · simp only [get_sqe, if_neg hc]
    simp only [sqInv] at *
    omega

/-- `flush_sq` preserves the counter invariant. -/
theorem flush_sq_preserves_inv (s : SQ) (_hinv : sqInv s) : sqInv (flush_sq s).2 := by
  have h0 := flush_sq_result_flushed s
  have hentries : (flush_sq s).2.kring_entries = s.kring_entries := by
    by_cases hz : u32sub s.sqe_tail s.sqe_head = 0 <;> simp [flush_sq, hz]
  simp only [sqInv]
  rw [h0, hentries]
  exact Nat.zero_le _

/-- Any interleaving of `get_sqe` and `flush_sq` preserves the invariant. -/
theorem runOps_preserves_inv (ops : List SQOp) :
    ∀ s : SQ, sqInv s → sqInv (runOps ops s) := by
  induction ops with
  | nil => intro s h; simpa [runOps] using h
  | cons op ops ih =>
      intro s h
      have hstep : sqInv (sqStep op s) := by
        cases op
        · exact get_sqe_preserves_inv s h
        · exact flush_sq_preserves_inv s h
      simpa [runOps, List.foldl] using ih (sqStep op s) hstep

/-- C5: when `to_submit = sqe_tail - sqe_head > 0` (wrapping) and the
ring mask is the power-of-two mask `2^k - 1` with `to_submit ≤ 2^k`
(the spec's ring-mask shape and capacity invariant), `flush_sq` writes
`array[(ktail + i) & ring_mask] = (sqe_head + i) & ring_mask` for every
`i < to_submit`, advances `sqe_head` to `sqe_tail`, stores
`ktail + to_submit` into the kernel-visible tail, and returns
`to_submit`; when `to_submit = 0` it returns `0` and leaves the state —
the kernel-visible tail included — untouched. -/
theorem flush_sq_publishes (s : SQ) (k : Nat) (hk : k ≤ 32)
    (hmask : s.kring_mask = 2^k - 1)
    (hh : s.sqe_head < U32) (ht : s.sqe_tail < U32) (hkt : s.ktail < U32)
    (hcap : u32sub s.sqe_tail s.sqe_head ≤ 2^k) :
    (u32sub s.sqe_tail s.sqe_head = 0 → flush_sq s = (0, s)) ∧
    (0 < u32sub s.sqe_tail s.sqe_head →
      (flush_sq s).1 = u32sub s.sqe_tail s.sqe_head ∧
      (flush_sq s).2.sqe_head = s.sqe_tail ∧
      (flush_sq s).2.sqe_tail = s.sqe_tail ∧
      (flush_sq s).2.ktail = u32add s.ktail (u32sub s.sqe_tail s.sqe_head) ∧
      (flush_sq s).2.sqes = s.sqes ∧
      ∀ i, i < u32sub s.sqe_tail s.sqe_head →
        (flush_sq s).2.array (u32add s.ktail i &&& s.kring_mask) =
          u32add s.sqe_head i &&& s.kring_mask) := by
  constructor
  · intro h0
    exact flush_sq_of_flushed s h0
  · intro hpos
    have hz : ¬ u32sub s.sqe_tail s.sqe_head = 0 := by omega
    have hc := flushIter_counters s.kring_mask (u32sub s.sqe_tail s.sqe_head)
      s.array s.sqe_head s.ktail (Or.inl ⟨hh, hkt⟩)
    refine ⟨by simp [flush_sq, hz], ?_, by simp [flush_sq, hz], ?_, by simp [flush_sq, hz], ?_⟩
    · simp only [flush_sq, if_neg hz]
      rw [hc.1]
      unfold u32sub U32 at *
      omega
    · simp only [flush_sq, if_neg hz]
      rw [hc.2]
      unfold u32add
      rfl
    · intro i hi
      simp only [flush_sq, if_neg hz]
      have harr := flushIter_array k hk (u32sub s.sqe_tail s.sqe_head)
        s.array s.sqe_head s.ktail hh hkt hcap i hi
      rw [hmask]
      show ((flushStep (2^k - 1))^[u32sub s.sqe_tail s.sqe_head]
        (s.array, s.sqe_head, s.ktail)).1 (u32add s.ktail i &&& (2^k - 1)) =
          u32add s.sqe_head i &&& (2^k - 1)
      unfold u32add
      exact harr

/-- C5 witness: the flush-publication theorem instantiated on a concrete
4-entry ring (mask `3 = 2^2 - 1`) with two pending entries. -/
theorem flush_sq_publishes_witness :
    ((2 : Nat) ≤ 32 ∧ sqPending.kring_mask = 2^2 - 1 ∧
     sqPending.sqe_head < U32 ∧ sqPending.sqe_tail < U32 ∧ sqPending.ktail < U32 ∧
     u32sub sqPending.sqe_tail sqPending.sqe_head ≤ 2^2) ∧
    ((u32sub sqPending.sqe_tail sqPending.sqe_head = 0 →
        flush_sq sqPending = (0, sqPending)) ∧
     (0 < u32sub sqPending.sqe_tail sqPending.sqe_head →
       (flush_sq sqPending).1 = u32sub sqPending.sqe_tail sqPending.sqe_head ∧
       (flush_sq sqPending).2.sqe_head = sqPending.sqe_tail ∧
       (flush_sq sqPending).2.sqe_tail = sqPending.sqe_tail ∧
       (flush_sq sqPending).2.ktail =
         u32add sqPending.ktail (u32sub sqPending.sqe_tail sqPending.sqe_head) ∧
       (flush_sq sqPending).2.sqes = sqPending.sqes ∧
       ∀ i, i < u32sub sqPending.sqe_tail sqPending.sqe_head →
         (flush_sq sqPending).2.array (u32add sqPending.ktail i &&& sqPending.kring_mask) =
           u32add sqPending.sqe_head i &&& sqPending.kring_mask)) :=
  ⟨⟨by decide, by decide, by decide, by decide, by decide, by decide⟩,
   flush_sq_publishes sqPending 2 (by decide) (by decide) (by decide) (by decide)
     (by decide) (by decide)⟩

/-- C6: starting from the state `queue_mmap` initialises
(`sqe_head = sqe_tail = 0`), the invariant
`sqe_tail - sqe_head ≤ ring_entries` (wrapping `u32`; the lower bound
`0 ≤` is automatic) holds after every interleaving of `get_sqe` and
`flush_sq`. -/
theorem sq_counters_invariant (ops : List SQOp) (s : SQ)
    (h0 : s.sqe_head = 0) (t0 : s.sqe_tail = 0) :
    u32sub (runOps ops s).sqe_tail (runOps ops s).sqe_head ≤
      (runOps ops s).kring_entries := by
  have hinv : sqInv s := by
    simp only [sqInv, h0, t0]
    unfold u32sub U32
    omega
  exact runOps_preserves_inv ops s hinv

/-- C6 witness: the invariant after a concrete interleaving
(alloc, alloc, flush, alloc, flush) on the empty 4-entry ring. -/
theorem sq_counters_invariant_witness :
    sq0.sqe_head = 0 ∧ sq0.sqe_tail = 0 ∧
    u32sub (runOps [SQOp.alloc, SQOp.alloc, SQOp.flush, SQOp.alloc, SQOp.flush] sq0).sqe_tail
        (runOps [SQOp.alloc, SQOp.alloc, SQOp.flush, SQOp.alloc, SQOp.flush] sq0).sqe_head ≤
      (runOps [SQOp.alloc, SQOp.alloc, SQOp.flush, SQOp.alloc, SQOp.flush] sq0).kring_entries :=
  ⟨rfl, rfl,
   sq_counters_invariant [SQOp.alloc, SQOp.alloc, SQOp.flush, SQOp.alloc, SQOp.flush]
     sq0 rfl rfl⟩

/-- C7: a second `submit()` with nothing allocated in between returns
`Ok(0)` and issues no `io_uring_enter` syscall — after the first submit
the private counters satisfy `sqe_head = sqe_tail`, so the second flush
publishes nothing and `do_submit_and_wait` returns before reaching the
enter path (for any SQPOLL/NEED_WAKEUP condition on either call). -/
theorem submit_idempotent (s : SQ) (p w p' w' : Bool) :
    submit (submit s p w).2 p' w' = (SubmitAction.noSyscall 0, (submit s p w).2) := by
  have h2 : (submit s p w).2 = (flush_sq s).2 := by
    by_cases h : (flush_sq s).1 > 0 <;>
      simp [submit, do_submit_and_wait, h]
  rw [h2]
  have hfl := flush_sq_of_flushed (flush_sq s).2 (flush_sq_result_flushed s)
  simp [submit, do_submit_and_wait, hfl]

/-- C10: whenever `get_sqe` returns `none` (queue full), the whole SQ
state — private counters, kernel-visible cells, ring array and every SQE
— is exactly as before the call. -/
theorem get_sqe_none_leaves_state (s : SQ) (h : (get_sqe s).1 = none) :
    (get_sqe s).2 = s := by
  by_cases hc : u32sub (u32add s.sqe_tail 1) s.sqe_head > s.kring_entries
  · simp [get_sqe, hc]
  · simp [get_sqe, hc] at h

/-- C10 witness: a saturated 2-entry ring where `get_sqe` reports full
and the state is returned untouched. -/
theorem get_sqe_none_leaves_state_witness :
    (get_sqe sqSaturated).1 = none ∧ (get_sqe sqSaturated).2 = sqSaturated :=
  ⟨by decide, get_sqe_none_leaves_state sqSaturated (by decide)⟩

end Iouring
